import Mathlib

/-!
# Verification of the dictation-audio pipeline (`src/app.py`)

Shallow embedding of the audio assembly pipeline of `src/app.py`.

Modelling conventions, fixed once for the whole development:

* A pydub `AudioSegment` is modelled as a `List Int` of PCM samples at a
  resolution of one sample per millisecond, so `len(segment)` (milliseconds in
  pydub) is `List.length`.  Concatenation (`+`/`+=`) is `List.append`,
  `AudioSegment.empty()` is `[]`, and `AudioSegment.silent(duration=d)` is
  `List.replicate d 0`.
* `segment[a:b]` millisecond slicing follows pydub's `__getitem__`: both bounds
  are first clamped above by the length, a negative bound is then interpreted
  relative to the end, and the underlying byte slice uses Python slice
  semantics (`pySlice`).
* A chunk is "silent" when its dBFS lies strictly below -40.  With
  `dBFS = 20 * log10 (rms / maxAmplitude)` and `rms = sqrt (sumsq / n)` this is
  equivalent to the integer inequality `10000 * sumsq < n * maxAmplitude ^ 2`,
  which is what `segSilent` computes (16-bit audio, `maxAmplitude = 32768`).
* The text-to-speech backend (`edge_tts` streaming plus mp3 decoding) is an
  external effect; it is modelled as an oracle
  `tts : text → voice → rate → Option Samples`, where `none` stands for any
  raised exception / failed synthesis and `some buf` for a successful decode.
-/

abbrev Samples := List Int

/-- Maximum possible amplitude of the decoded 16-bit PCM data
(pydub `max_possible_amplitude`). -/
def maxAmplitude : Int := 32768

/-- Sum of squared samples, the quantity underlying pydub's `rms`/`dBFS`. -/
def sumsq (xs : Samples) : Int := (xs.map (fun x => x * x)).sum

/-- `dBFS < -40` for a chunk: `20*log10(rms/maxAmplitude) < -40` iff
`rms < maxAmplitude/100` iff `10000 * sumsq < n * maxAmplitude^2`.
The empty chunk has `dBFS = -inf` in pydub, but the scanning loop below only
ever tests nonempty chunks, and on the empty chunk this returns `false`. -/
def segSilent (chunk : Samples) : Bool :=
  decide (10000 * sumsq chunk < (chunk.length : Int) * (maxAmplitude * maxAmplitude))

/-- Python slice semantics `xs[a:b]` on the underlying data: a negative index
counts from the end, then both are clamped into `[0, len]`, and the result is
empty unless `a < b`. -/
def pySlice (xs : Samples) (a b : Int) : Samples :=
  let n : Int := xs.length
  let a' := if a < 0 then n + a else a
  let b' := if b < 0 then n + b else b
  let a'' := max 0 (min a' n)
  let b'' := max 0 (min b' n)
  if a'' < b'' then (xs.drop a''.toNat).take (b'' - a'').toNat else []

/-- pydub `AudioSegment.__getitem__` for a slice `segment[start:stop]`
(milliseconds): clamp above by the length, then `_parse_position` maps a
negative bound to `len - |bound|`, then the data is sliced Python-style. -/
def audioSlice (xs : Samples) (start stop : Int) : Samples :=
  let L : Int := xs.length
  let start := min start L
  let stop := min stop L
  let start := if start < 0 then L + start else start
  let stop := if stop < 0 then L + stop else stop
  pySlice xs start stop

/-- The 10 ms chunk `sound[trim_ms : trim_ms + chunk_size]` examined by
`detect_leading_silence` (`chunk_size = 10`). -/
def chunkAt (sound : Samples) (t : Nat) : Samples :=
  audioSlice sound (t : Int) ((t : Int) + 10)

/-- The scanning loop of `detect_leading_silence` (`src/app.py` lines 29-33),
with explicit fuel; `trim_ms` starts at 0 and advances by the chunk size 10
while the current chunk is below the threshold. -/
def dlsAux (sound : Samples) : Nat → Nat → Nat
  | 0, trim => trim
  | fuel + 1, trim =>
    if trim < sound.length ∧ segSilent (chunkAt sound trim) = true then
      dlsAux sound fuel (trim + 10)
    else trim

/-- `detect_leading_silence(sound)` (`src/app.py` lines 24-33): length in ms of
the run of leading below-threshold 10 ms chunks.  `sound.length + 1` units of
fuel strictly exceed the number of loop iterations, which is at most
`len/10 + 1`. -/
def detect_leading_silence (sound : Samples) : Nat :=
  dlsAux sound (sound.length + 1) 0

/-- `strip_silence(sound)` (`src/app.py` lines 35-43): trim the detected
leading silence, the detected trailing silence (leading silence of the
reversed signal), and slice. -/
def strip_silence (sound : Samples) : Samples :=
  let start_trim := detect_leading_silence sound
  let end_trim := detect_leading_silence sound.reverse
  let duration := sound.length
  audioSlice sound (start_trim : Int) ((duration : Int) - (end_trim : Int))

/-- The text-to-speech backend: `_edge_tts_generate` followed by the mp3
decode (`src/app.py` lines 45-53 and 74-75), as an oracle from
(text, voice, rate) to a decoded buffer; `none` stands for any raised
exception on this path. -/
abbrev TTS := String → String → String → Option Samples

/-- Voice selection of `create_audio_segment` (`src/app.py` lines 59-62). -/
def voice_for (lang : String) : String :=
  if lang = "zh" then "zh-CN-XiaoxiaoNeural" else "en-US-JennyNeural"

/-- Rate selection of `create_audio_segment` (`src/app.py` lines 64-71). -/
def rate_for (slow is_spelling : Bool) : String :=
  if is_spelling then "+50%" else if slow then "-20%" else "+0%"

/-- `create_audio_segment(text, lang, slow, is_spelling)`
(`src/app.py` lines 55-85): synthesize via the oracle, strip silence from a
nonempty result, and degrade to `AudioSegment.silent(duration=200)` when the
synthesis/decode path raises. -/
def create_audio_segment (tts : TTS) (text : String) (lang : String)
    (slow is_spelling : Bool) : Samples :=
  match tts text (voice_for lang) (rate_for slow is_spelling) with
  | none => List.replicate 200 0
  | some segment => if 0 < segment.length then strip_silence segment else segment

/-- `''.join(filter(str.isalpha, word))` (`src/app.py` line 105), as the list
of alphabetic characters of the word.  Python's Unicode `str.isalpha` is
modelled by the alphabetic-character predicate `Char.isAlpha`. -/
def clean_word (word : String) : List Char :=
  word.data.filter Char.isAlpha

/-- The list `spelling_audio_segments` built by the letter loop of
`generate_word_audio` (`src/app.py` lines 104-116): for each letter of the
filtered word, the letter's audio, followed by a `spell_pause_ms` silent pad
only when `spell_pause_ms > 0`. -/
def spelling_audio_segments (tts : TTS) (word : String) (spell_pause_ms : Nat) :
    List Samples :=
  (clean_word word).flatMap (fun char =>
    [create_audio_segment tts (String.singleton char) "en" false true] ++
      (if 0 < spell_pause_ms then [List.replicate spell_pause_ms 0] else []))

/-- `spelling_combined` (`src/app.py` lines 118-124): empty when no segments;
otherwise Python `sum` (segment concatenation) of all segments, dropping the
final trailing pad (`[:-1]`) when `spell_pause_ms > 0`. -/
def spelling_combined (tts : TTS) (word : String) (spell_pause_ms : Nat) : Samples :=
  let segs := spelling_audio_segments tts word spell_pause_ms
  if segs.isEmpty then []
  else if 0 < spell_pause_ms then segs.dropLast.flatten
  else segs.flatten

/-- `generate_word_audio(word, translation, repeat_count, slow_speed,
spell_pause_ms, word_pause_ms)` (`src/app.py` lines 96-150): the word block —
the word repeated `repeat_count` times, pause, spelling, pause, the word once
more, pause, the translation's audio when the translation string is nonempty
(Python truthiness of `if translation:`), and a trailing pause of
`2 * word_pause_ms`. -/
def generate_word_audio (tts : TTS) (word translation : String)
    (repeat_count : Nat) (slow_speed : Bool) (spell_pause_ms word_pause_ms : Nat) :
    Samples :=
  let full_word_audio_normal := create_audio_segment tts word "en" false false
  let full_word_audio_slow := create_audio_segment tts word "en" true false
  let word_audio := if slow_speed then full_word_audio_slow else full_word_audio_normal
  (List.replicate repeat_count word_audio).flatten
    ++ List.replicate word_pause_ms 0
    ++ spelling_combined tts word spell_pause_ms
    ++ List.replicate word_pause_ms 0
    ++ word_audio
    ++ List.replicate word_pause_ms 0
    ++ (if translation = "" then []
        else create_audio_segment tts translation "zh" false false)
    ++ List.replicate (word_pause_ms * 2) 0

/-! ## Entry parsing and translation resolution (`run_main_app`) -/

/-- Python `str.strip()`: drop whitespace from both ends of the string
(working on the code-point list `String.data`, which the kernel can
evaluate). -/
def pyStrip (s : String) : String :=
  String.mk ((s.data.dropWhile Char.isWhitespace).reverse.dropWhile
    Char.isWhitespace).reverse

/-- Python `str.replace('，', ',')`: both pattern and replacement are a
single character, so the replacement is a per-character map. -/
def normalizeCommas (s : String) : String :=
  String.mk (s.data.map (fun c => if c = '，' then ',' else c))

/-- Python `str.split(',', 1)`: the part before the first comma, and the part
after it when a comma is present (`parts[1]`). -/
def splitFirstComma (s : String) : String × Option String :=
  let before := s.data.takeWhile (fun c => c ≠ ',')
  let rest := s.data.dropWhile (fun c => c ≠ ',')
  match rest with
  | [] => (String.mk before, none)
  | _ :: after => (String.mk before, some (String.mk after))

/-- The per-line body of the reading loop (`src/app.py` lines 231-240):
strip the line, skip it when blank, normalize the full-width comma, split on
the first comma only, and strip both parts; a line with no comma gets the
empty translation. -/
def split_entry (raw_line : String) : Option (String × String) :=
  let stripped_line := pyStrip raw_line
  if stripped_line = "" then none else
  let stripped_line := normalizeCommas stripped_line
  match splitFirstComma stripped_line with
  | (w, none) => some (pyStrip w, "")
  | (w, some t) => some (pyStrip w, pyStrip t)

/-- The reading loop of `run_main_app` (`src/app.py` lines 229-240), returning
`(words_to_translate, ordered_words_data)`: every parsed entry is appended to
`ordered_words_data`, and its word is also appended to `words_to_translate`
when the supplied translation is empty. -/
def parse_input : List String → List String × List (String × String)
  | [] => ([], [])
  | line :: rest =>
    let r := parse_input rest
    match split_entry line with
    | none => r
    | some (w, t) => (if t = "" then w :: r.1 else r.1, (w, t) :: r.2)

/-- The words for which the translation loop (`src/app.py` lines 249-256)
issues one `get_translation` network request each, in order. -/
def translation_requests (lines : List String) : List String :=
  (parse_input lines).1

/-- `get_translation(text)` (`src/app.py` lines 87-94) together with the
locale pairs it requests from the external provider: it constructs
`GoogleTranslator(source='auto', target='zh-CN')` and issues exactly one
`translate` call; any exception yields `None`.  The oracle
`tr source target text` models the provider. -/
def get_translation_run (tr : String → String → String → Option String)
    (text : String) : Option String × List (String × String) :=
  (tr "auto" "zh-CN" text, [("auto", "zh-CN")])

/-- The value a word's translation resolves to in the translation loop: the
provider's answer, or the empty string when the lookup fails
(`g w = none`, and Python's falsy `""` answer also stays `""`). -/
def resolveT (g : String → Option String) (w : String) : String :=
  (g w).getD ""

/-- The translation loop (`src/app.py` lines 245-257) over
`words_to_translate`: builds `newly_translated_words` (first component) and
the list of words for which a warning is shown (second component).  A falsy
result (`None` or `""`) takes the warning branch and records `(word, "")`. -/
def translate_phase (g : String → Option String) :
    List String → List (String × String) × List String
  | [] => ([], [])
  | w :: rest =>
    let r := translate_phase g rest
    match g w with
    | some t => if t = "" then ((w, "") :: r.1, w :: r.2) else ((w, t) :: r.1, r.2)
    | none => ((w, "") :: r.1, w :: r.2)

/-- One Python `dict` assignment `d[k] = v`, as an update of the lookup
function. -/
def dict_insert (d : String → Option String) (kv : String × String) :
    String → Option String :=
  fun w => if w = kv.1 then some kv.2 else d w

/-- A Python `dict` built by inserting the pairs left to right
(later assignments to the same key win). -/
def build_dict (pairs : List (String × String)) : String → Option String :=
  pairs.foldl dict_insert (fun _ => none)

/-- `final_words_dict` (`src/app.py` lines 259-261): the dict comprehension
over `ordered_words_data` followed by the overwriting loop over
`newly_translated_words`. -/
def final_words_dict (g : String → Option String) (lines : List String) :
    String → Option String :=
  build_dict ((parse_input lines).2 ++ (translate_phase g (parse_input lines).1).1)

/-- `words_data_for_audio` (`src/app.py` lines 263-265): every occurrence is
re-paired with `final_words_dict.get(word, "")`. -/
def words_data_for_audio (g : String → Option String) (lines : List String) :
    List (String × String) :=
  (parse_input lines).2.map (fun e => (e.1, (final_words_dict g lines e.1).getD ""))

/-- The truncation of `run_main_app` (`src/app.py` lines 271-272):
`limit = words_per_file if words_per_file > 0 else len(entries)` and
`entries[:limit]`. -/
def words_to_process (entries : List (String × String)) (words_per_file : Nat) :
    List (String × String) :=
  let limit := if 0 < words_per_file then words_per_file else entries.length
  entries.take limit

/-- The generation loop of `run_main_app` (`src/app.py` lines 276-290):
`combined_audio_segment` is the concatenation, in order, of the word blocks of
the retained entries. -/
def combined_audio_segment (tts : TTS) (repeat_count : Nat) (slow_speed : Bool)
    (spell_pause_ms word_pause_ms words_per_file : Nat)
    (entries : List (String × String)) : Samples :=
  ((words_to_process entries words_per_file).map (fun e =>
    generate_word_audio tts e.1 e.2 repeat_count slow_speed spell_pause_ms
      word_pause_ms)).flatten

/-! ## Lemmas about slicing -/

theorem pySlice_eq_drop_take (xs : Samples) (a b : Nat)
    (ha : a ≤ xs.length) (hb : b ≤ xs.length) :
    pySlice xs (a : Int) (b : Int) = (xs.drop a).take (b - a) := by
  have ha' : (a : Int) ≤ (xs.length : Int) := by exact_mod_cast ha
  have hb' : (b : Int) ≤ (xs.length : Int) := by exact_mod_cast hb
  simp only [pySlice]
  split_ifs <;> try (exfalso; omega)
  · congr 1
    · omega
    · congr 1
      omega
  · have hba : b - a = 0 := by omega
    rw [hba, List.take_zero]

theorem audioSlice_eq_drop_take (xs : Samples) (a b : Nat) (ha : a ≤ xs.length) :
    audioSlice xs (a : Int) (b : Int) = (xs.drop a).take (min b xs.length - a) := by
  have ha' : (a : Int) ≤ (xs.length : Int) := by exact_mod_cast ha
  simp only [audioSlice]
  split_ifs <;> try (exfalso; omega)
  rw [min_eq_left ha']
  have hmin : min (b : Int) (xs.length : Int) = ((min b xs.length : Nat) : Int) := by
    omega
  rw [hmin]
  exact pySlice_eq_drop_take xs a (min b xs.length) ha (min_le_right _ _)

theorem audioSlice_empty_of_start_ge (xs : Samples) (start stop : Int)
    (h : (xs.length : Int) ≤ start) :
    audioSlice xs start stop = [] := by
  simp only [audioSlice, pySlice]
  split_ifs <;> first | rfl | (exfalso; omega)

theorem ite_shape (c : Prop) [Decidable c] (xs l : Samples) (s k : Nat)
    (h : l = (xs.drop s).take k) :
    ∃ s' k', (if c then l else []) = (xs.drop s').take k' := by
  by_cases hc : c
  · rw [if_pos hc]; exact ⟨s, k, h⟩
  · rw [if_neg hc]; exact ⟨0, 0, by simp⟩

theorem pySlice_shape (xs : Samples) (a b : Int) :
    ∃ s k, pySlice xs a b = (xs.drop s).take k := by
  simp only [pySlice]
  exact ite_shape _ xs _ _ _ rfl

theorem audioSlice_shape (xs : Samples) (a b : Int) :
    ∃ s k, audioSlice xs a b = (xs.drop s).take k := by
  simp only [audioSlice]
  exact pySlice_shape _ _ _

/-! ## Lemmas about the silence scan -/

theorem dlsAux_mod10 (s : Samples) (f t : Nat) (h : t % 10 = 0) :
    dlsAux s f t % 10 = 0 := by
  induction f generalizing t with
  | zero => simpa [dlsAux] using h
  | succ f ih =>
    simp only [dlsAux]
    split
    · exact ih _ (by omega)
    · exact h

theorem dlsAux_le (s : Samples) (f t : Nat) (hL : s.length % 10 = 0)
    (ht : t % 10 = 0) (hle : t ≤ s.length) : dlsAux s f t ≤ s.length := by
  induction f generalizing t with
  | zero => simpa [dlsAux] using hle
  | succ f ih =>
    simp only [dlsAux]
    by_cases hc : t < s.length ∧ segSilent (chunkAt s t) = true
    · rw [if_pos hc]
      have hlt := hc.1
      exact ih _ (by omega) (by omega)
    · rw [if_neg hc]
      exact hle

theorem dlsAux_exit (s : Samples) (f t : Nat) (hfuel : s.length ≤ t + 10 * f) :
    dlsAux s f t < s.length → segSilent (chunkAt s (dlsAux s f t)) = false := by
  induction f generalizing t with
  | zero =>
    simp only [dlsAux]
    intro h
    exact absurd h (by omega)
  | succ f ih =>
    simp only [dlsAux]
    by_cases hc : t < s.length ∧ segSilent (chunkAt s t) = true
    · rw [if_pos hc]
      exact ih _ (by omega)
    · rw [if_neg hc]
      intro hlt
      cases hsb : segSilent (chunkAt s t) with
      | false => rfl
      | true => exact absurd ⟨hlt, hsb⟩ hc

theorem dls_mod10 (s : Samples) : detect_leading_silence s % 10 = 0 :=
  dlsAux_mod10 s _ 0 rfl

theorem dls_le (s : Samples) (hL : s.length % 10 = 0) :
    detect_leading_silence s ≤ s.length :=
  dlsAux_le s _ 0 hL rfl (Nat.zero_le _)

theorem dls_exit (s : Samples) :
    detect_leading_silence s < s.length →
      segSilent (chunkAt s (detect_leading_silence s)) = false :=
  dlsAux_exit s _ 0 (by omega)

theorem dls_ge_of_silent (s : Samples)
    (h : ∀ t, t < s.length → segSilent (chunkAt s t) = true) :
    s.length ≤ detect_leading_silence s := by
  by_contra h'
  push_neg at h'
  have h1 := dls_exit s h'
  have h2 := h _ h'
  rw [h1] at h2
  exact Bool.false_ne_true h2

theorem dls_eq_zero_of_loud (s : Samples)
    (h : segSilent (chunkAt s 0) = false) : detect_leading_silence s = 0 := by
  unfold detect_leading_silence
  obtain ⟨f, hf⟩ : ∃ f, s.length + 1 = f + 1 := ⟨s.length, rfl⟩
  rw [hf]
  simp only [dlsAux]
  rw [if_neg]
  rintro ⟨-, hsil⟩
  rw [h] at hsil
  exact Bool.false_ne_true hsil

theorem chunkAt_eq (s : Samples) (t : Nat) (ht : t ≤ s.length) :
    chunkAt s t = (s.drop t).take (min (t + 10) s.length - t) := by
  unfold chunkAt
  have h10 : ((t : Int) + 10) = ((t + 10 : Nat) : Int) := by push_cast; ring
  rw [h10]
  exact audioSlice_eq_drop_take s t (t + 10) ht

theorem chunkAt_length (s : Samples) (t : Nat) (ht : t < s.length) :
    (chunkAt s t).length = min (t + 10) s.length - t := by
  rw [chunkAt_eq s t (le_of_lt ht)]
  simp only [List.length_take, List.length_drop]
  omega

theorem chunkAt_subset (s : Samples) (t : Nat) (ht : t ≤ s.length) :
    ∀ x ∈ chunkAt s t, x ∈ s := by
  rw [chunkAt_eq s t ht]
  intro x hx
  exact List.drop_subset _ _ (List.take_subset _ _ hx)

/-! ## Per-sample silence implies chunk silence -/

theorem sumsq_nil : sumsq [] = 0 := rfl

theorem sumsq_cons (x : Int) (l : Samples) : sumsq (x :: l) = x * x + sumsq l := by
  simp [sumsq]

/-- Every individual sample of the buffer lies strictly below the -40 dBFS
amplitude threshold (`|x| < maxAmplitude / 100`, in squared integer form). -/
def allBelowThreshold (xs : Samples) : Prop :=
  ∀ x ∈ xs, 10000 * (x * x) < maxAmplitude * maxAmplitude

instance : DecidablePred allBelowThreshold := fun xs => by
  unfold allBelowThreshold; infer_instance

theorem sumsq_lt_of_below (l : Samples) (hne : l ≠ [])
    (h : ∀ x ∈ l, 10000 * (x * x) < maxAmplitude * maxAmplitude) :
    10000 * sumsq l < (l.length : Int) * (maxAmplitude * maxAmplitude) := by
  induction l with
  | nil => exact absurd rfl hne
  | cons x rest ih =>
    have hx := h x (List.mem_cons_self x rest)
    cases rest with
    | nil =>
      simp only [sumsq_cons, sumsq_nil, List.length_cons, List.length_nil,
        maxAmplitude] at *
      push_cast
      linarith
    | cons y t =>
      have h1 := ih (by simp) (fun z hz => h z (List.mem_cons_of_mem _ hz))
      simp only [sumsq_cons, List.length_cons, maxAmplitude] at *
      push_cast at *
      linarith

theorem segSilent_of_below (l : Samples) (hne : l ≠ [])
    (h : ∀ x ∈ l, 10000 * (x * x) < maxAmplitude * maxAmplitude) :
    segSilent l = true := by
  unfold segSilent
  rw [decide_eq_true_eq]
  exact sumsq_lt_of_below l hne h

theorem dls_ge_of_allBelow (s : Samples) (h : allBelowThreshold s) :
    s.length ≤ detect_leading_silence s := by
  refine dls_ge_of_silent s (fun t ht => ?_)
  refine segSilent_of_below _ ?_ (fun x hx => h x (chunkAt_subset s t (le_of_lt ht) x hx))
  have hl := chunkAt_length s t ht
  intro hnil
  rw [hnil] at hl
  simp at hl
  omega

theorem strip_silence_shape (xs : Samples) :
    ∃ s k, strip_silence xs = (xs.drop s).take k := by
  unfold strip_silence
  exact audioSlice_shape _ _ _

theorem strip_silence_length_le (xs : Samples) :
    (strip_silence xs).length ≤ xs.length := by
  obtain ⟨s, k, hs⟩ := strip_silence_shape xs
  rw [hs]
  simp only [List.length_take, List.length_drop]
  omega

theorem strip_silence_empty_of_allBelow (xs : Samples) (h : allBelowThreshold xs) :
    strip_silence xs = [] := by
  unfold strip_silence
  refine audioSlice_empty_of_start_ge _ _ _ ?_
  exact_mod_cast dls_ge_of_allBelow xs h

/-! ## Idempotence of `strip_silence` on chunk-aligned buffers -/

theorem reverse_drop_take (xs : Samples) (s m e : Nat) (h : s + m + e = xs.length) :
    ((xs.drop s).take m).reverse = (xs.reverse.drop e).take m := by
  rw [List.reverse_take, List.reverse_drop, List.drop_take]
  have h1 : (xs.drop s).length = m + e := by
    simp only [List.length_drop]; omega
  have h2 : xs.length - s = m + e := by omega
  rw [h1, h2]
  have h3 : m + e - m = e := by omega
  rw [h3]
  congr 1
  omega

theorem strip_silence_nil : strip_silence ([] : Samples) = [] := by decide

theorem strip_silence_eq_self (T : Samples) (h1 : detect_leading_silence T = 0)
    (h2 : detect_leading_silence T.reverse = 0) : strip_silence T = T := by
  unfold strip_silence
  rw [h1, h2]
  have h := audioSlice_eq_drop_take T 0 T.length (Nat.zero_le _)
  simp only [Nat.cast_zero, Int.sub_zero] at h ⊢
  rw [h]
  simp

theorem strip_silence_aligned (xs : Samples) (hL : xs.length % 10 = 0) :
    strip_silence xs =
      (xs.drop (detect_leading_silence xs)).take
        (xs.length - detect_leading_silence xs.reverse - detect_leading_silence xs) := by
  have hsle : detect_leading_silence xs ≤ xs.length := dls_le xs hL
  have hele : detect_leading_silence xs.reverse ≤ xs.length := by
    have := dls_le xs.reverse (by simpa using hL)
    simpa using this
  simp only [strip_silence]
  have hcast : ((xs.length : Int) - (detect_leading_silence xs.reverse : Int)) =
      ((xs.length - detect_leading_silence xs.reverse : Nat) : Int) := by omega
  rw [hcast, audioSlice_eq_drop_take xs _ _ hsle]
  congr 1
  omega

theorem strip_silence_idem_aligned (xs : Samples) (hL : xs.length % 10 = 0) :
    strip_silence (strip_silence xs) = strip_silence xs := by
  have hsle : detect_leading_silence xs ≤ xs.length := dls_le xs hL
  have hele : detect_leading_silence xs.reverse ≤ xs.length := by
    have := dls_le xs.reverse (by simpa using hL)
    simpa using this
  have hsm : detect_leading_silence xs % 10 = 0 := dls_mod10 xs
  have hem : detect_leading_silence xs.reverse % 10 = 0 := dls_mod10 xs.reverse
  have hstrip := strip_silence_aligned xs hL
  by_cases hcase :
      xs.length - detect_leading_silence xs.reverse - detect_leading_silence xs = 0
  · rw [hstrip, hcase, List.take_zero, strip_silence_nil]
  · -- the trimmed buffer is a nonempty multiple of the chunk size
    have hm10 : (xs.length - detect_leading_silence xs.reverse -
        detect_leading_silence xs) % 10 = 0 := by omega
    have hm10le : 10 ≤ xs.length - detect_leading_silence xs.reverse -
        detect_leading_silence xs := by omega
    have hslt : detect_leading_silence xs < xs.length := by omega
    have helt : detect_leading_silence xs.reverse < xs.reverse.length := by
      simp only [List.length_reverse]; omega
    have hsx := dls_exit xs hslt
    have hex := dls_exit xs.reverse helt
    have hmlen : (strip_silence xs).length = xs.length -
        detect_leading_silence xs.reverse - detect_leading_silence xs := by
      rw [hstrip]
      simp only [List.length_take, List.length_drop]
      omega
    -- the leading chunk of the trimmed buffer is the non-silent exit chunk
    have hfc : chunkAt (strip_silence xs) 0 = chunkAt xs (detect_leading_silence xs) := by
      rw [chunkAt_eq _ 0 (Nat.zero_le _), chunkAt_eq xs _ (le_of_lt hslt),
        List.drop_zero, hmlen, hstrip, List.take_take]
      congr 1
      omega
    have hdls1 : detect_leading_silence (strip_silence xs) = 0 :=
      dls_eq_zero_of_loud _ (by rw [hfc]; exact hsx)
    -- the trailing chunk is the non-silent exit chunk of the reversed signal
    have hrev : (strip_silence xs).reverse =
        (xs.reverse.drop (detect_leading_silence xs.reverse)).take
          (xs.length - detect_leading_silence xs.reverse - detect_leading_silence xs) := by
      rw [hstrip]
      exact reverse_drop_take xs _ _ _ (by omega)
    have hrevlen : (strip_silence xs).reverse.length = xs.length -
        detect_leading_silence xs.reverse - detect_leading_silence xs := by
      simp only [List.length_reverse]; exact hmlen
    have hfcr : chunkAt (strip_silence xs).reverse 0 =
        chunkAt xs.reverse (detect_leading_silence xs.reverse) := by
      rw [chunkAt_eq _ 0 (Nat.zero_le _),
        chunkAt_eq xs.reverse _ (le_of_lt helt), List.drop_zero, hrevlen, hrev,
        List.take_take, List.length_reverse]
      congr 1
      omega
    have hdls2 : detect_leading_silence (strip_silence xs).reverse = 0 :=
      dls_eq_zero_of_loud _ (by rw [hfcr]; exact hex)
    exact strip_silence_eq_self _ hdls1 hdls2

/-! ## Claim theorems about `strip_silence` -/

/-- C6 (counterexample): silence trimming is not idempotent.  For the 25 ms
buffer below (faint energy at 7 ms and 17 ms keeping the two overlapping scan
windows just above threshold, and a small residue at 12 ms), one trim yields
the 5 ms buffer `[0, 0, 100, 0, 0]`, whose single clipped chunk is below the
-40 dBFS threshold, so a second trim removes 5 further milliseconds and
returns the empty buffer. -/
theorem c6_not_idempotent_counterexample :
    strip_silence (strip_silence
        [0, 0, 0, 0, 0, 0, 0, 1036, 0, 0, 0, 0, 100, 0, 0, 0, 0, 1036, 0, 0, 0, 0, 0, 0, 0]) ≠
      strip_silence
        [0, 0, 0, 0, 0, 0, 0, 1036, 0, 0, 0, 0, 100, 0, 0, 0, 0, 1036, 0, 0, 0, 0, 0, 0, 0] := by
  decide

/-- C6 (amended): silence trimming is idempotent on every buffer whose
duration is a multiple of the 10 ms chunk size: the scan offsets then stay
chunk-aligned after the first trim, so no leading or trailing chunk below the
-40 dBFS threshold remains and a second trim removes zero further
milliseconds. -/
theorem c6_strip_silence_idempotent_aligned (b : Samples) (h : b.length % 10 = 0) :
    strip_silence (strip_silence b) = strip_silence b :=
  strip_silence_idem_aligned b h

/-- Witness for the amended C6 on a concrete 10 ms buffer. -/
theorem c6_strip_silence_idempotent_aligned_witness :
    ([0, 0, 1100, 0, 0, 0, 0, 0, 0, 0] : Samples).length % 10 = 0 ∧
      strip_silence (strip_silence [0, 0, 1100, 0, 0, 0, 0, 0, 0, 0]) =
        strip_silence [0, 0, 1100, 0, 0, 0, 0, 0, 0, 0] :=
  ⟨by decide, c6_strip_silence_idempotent_aligned [0, 0, 1100, 0, 0, 0, 0, 0, 0, 0] (by decide)⟩

/-- C10: `strip_silence` is total and shape-safe: it returns a contiguous
sub-segment of its input (a `take` of a `drop`), of duration at most the
input's duration, and a buffer all of whose samples are below the -40 dBFS
threshold (including the empty buffer) trims to the empty buffer. -/
theorem c10_strip_silence_safety (b : Samples) :
    (∃ s k, strip_silence b = (b.drop s).take k) ∧
      (strip_silence b).length ≤ b.length ∧
      (allBelowThreshold b → strip_silence b = []) :=
  ⟨strip_silence_shape b, strip_silence_length_le b, strip_silence_empty_of_allBelow b⟩

/-- Witness for C10 on a concrete all-quiet buffer. -/
theorem c10_strip_silence_safety_witness :
    allBelowThreshold [0, 5, 300] ∧ strip_silence [0, 5, 300] = [] :=
  ⟨by decide, (c10_strip_silence_safety [0, 5, 300]).2.2 (by decide)⟩

/-! ## The spelling block as an interspersed concatenation -/

theorem dropLast_flatMap_pair (pad : Samples) (bs : List Samples) (h : bs ≠ []) :
    (bs.flatMap (fun b => [b, pad])).dropLast = List.intersperse pad bs := by
  induction bs with
  | nil => exact absurd rfl h
  | cons x t ih =>
    cases t with
    | nil => rfl
    | cons y u =>
      have ht : (y :: u).flatMap (fun b => [b, pad]) ≠ [] := by simp
      rw [List.flatMap_cons, List.dropLast_append_of_ne_nil _ ht, ih (by simp)]
      rfl

theorem flatten_intersperse_nil (ls : List Samples) :
    (List.intersperse ([] : Samples) ls).flatten = ls.flatten := by
  induction ls with
  | nil => rfl
  | cons x t ih =>
    cases t with
    | nil => rfl
    | cons y u =>
      show (x :: [] :: List.intersperse [] (y :: u)).flatten = _
      simp only [List.flatten_cons, List.nil_append] at ih ⊢
      rw [ih]

theorem length_flatten_intersperse (pad : Samples) (bs : List Samples) :
    (List.intersperse pad bs).flatten.length =
      (bs.map List.length).sum + (bs.length - 1) * pad.length := by
  induction bs with
  | nil => simp
  | cons x t ih =>
    cases t with
    | nil => simp
    | cons y u =>
      have hcc : List.intersperse pad (x :: y :: u) =
          x :: pad :: List.intersperse pad (y :: u) := rfl
      rw [hcc]
      simp only [List.flatten_cons, List.length_append, List.map_cons,
        List.sum_cons, List.length_cons] at ih ⊢
      rw [ih]
      have : (u.length + 1 + 1 - 1) * pad.length =
          (u.length + 1 - 1) * pad.length + pad.length := by
        simp [Nat.succ_sub_one, Nat.succ_mul]
      omega

theorem flatMap_pair_map (buf : Char → Samples) (pad : Samples) (l : List Char) :
    (l.flatMap (fun c => [buf c, pad])) = (l.map buf).flatMap (fun b => [b, pad]) := by
  induction l with
  | nil => rfl
  | cons c t ih => simp only [List.flatMap_cons, List.map_cons, ih]

theorem flatMap_singleton_map (buf : Char → Samples) (l : List Char) :
    (l.flatMap (fun c => [buf c])) = l.map buf := by
  induction l with
  | nil => rfl
  | cons c t ih => simp only [List.flatMap_cons, List.map_cons, ih]; rfl

theorem spelling_combined_eq (tts : TTS) (word : String) (p : Nat) :
    spelling_combined tts word p =
      (List.intersperse (List.replicate p (0 : Int))
          ((clean_word word).map
            (fun c => create_audio_segment tts (String.singleton c) "en" false true))).flatten := by
  unfold spelling_combined spelling_audio_segments
  by_cases hp : 0 < p
  · simp only [if_pos hp]
    cases hcw : clean_word word with
    | nil => simp
    | cons c t =>
      have hpair : (c :: t).flatMap
          (fun char => [create_audio_segment tts (String.singleton char) "en" false true] ++
            [List.replicate p (0 : Int)]) =
          ((c :: t).map (fun char =>
            create_audio_segment tts (String.singleton char) "en" false true)).flatMap
            (fun b => [b, List.replicate p (0 : Int)]) := by
        rw [← flatMap_pair_map]
        rfl
      rw [hpair]
      have hne : (((c :: t).map (fun char =>
          create_audio_segment tts (String.singleton char) "en" false true)).flatMap
            (fun b => [b, List.replicate p (0 : Int)])).isEmpty = false := by
        simp
      rw [hne]
      simp only [Bool.false_eq_true, if_false, if_pos hp]
      rw [dropLast_flatMap_pair _ _ (by simp)]
  · simp only [if_neg hp]
    have hp0 : p = 0 := by omega
    subst hp0
    cases hcw : clean_word word with
    | nil => simp
    | cons c t =>
      have hsing : (c :: t).flatMap
          (fun char => [create_audio_segment tts (String.singleton char) "en" false true] ++ []) =
          (c :: t).map (fun char =>
            create_audio_segment tts (String.singleton char) "en" false true) := by
        simp only [List.append_nil]
        exact flatMap_singleton_map _ _
      rw [hsing]
      have hne : ((c :: t).map (fun char =>
          create_audio_segment tts (String.singleton char) "en" false true)).isEmpty = false := by
        simp
      rw [hne]
      simp only [Bool.false_eq_true, if_false, List.replicate_zero]
      rw [flatten_intersperse_nil]

theorem spelling_combined_length (tts : TTS) (word : String) (p : Nat) :
    (spelling_combined tts word p).length =
      ((clean_word word).map (fun c =>
        (create_audio_segment tts (String.singleton c) "en" false true).length)).sum
        + ((clean_word word).length - 1) * p := by
  rw [spelling_combined_eq, length_flatten_intersperse]
  simp only [List.map_map, List.length_map, List.length_replicate]
  rfl

theorem sum_map_const_nat {α : Type} (l : List α) (c : Nat) :
    (l.map (fun _ => c)).sum = l.length * c := by
  induction l with
  | nil => simp
  | cons x t ih => simp [ih, Nat.succ_mul]; omega

/-- A concrete synthesis oracle used by witnesses: every request decodes to
the fixed three-sample buffer `[5000, 0, 20000]` (which `strip_silence`
leaves unchanged). -/
def tts0 : TTS := fun _ _ _ => some [5000, 0, 20000]

/-! ## Claim theorems for per-word composition -/

/-- C1: for a word entry with no resolved translation and any config with
`repeatCount` in `[1, 5]`, the composed block is exactly: `repeatCount`
back-to-back copies of the word's audio (slow or normal as selected by
`slowSpeed`), `wordPauseMs` of silence, the spelling block (letter buffers at
the spelling rate interspersed with `spellPauseMs` pads), `wordPauseMs` of
silence, one more copy of the word's audio, `wordPauseMs` of silence, and
`2 * wordPauseMs` of trailing silence — no translation segment.  Hence the
structural silence totals `5 * wordPauseMs` and the inter-letter silence
totals `(L - 1) * spellPauseMs` for `L` alphabetic letters. -/
theorem c1_word_block_structure (tts : TTS) (word : String) (repeat_count : Nat)
    (slow_speed : Bool) (spell_pause_ms word_pause_ms : Nat)
    (h1 : 1 ≤ repeat_count) (h2 : repeat_count ≤ 5) :
    generate_word_audio tts word "" repeat_count slow_speed spell_pause_ms word_pause_ms =
        (List.replicate repeat_count (if slow_speed then
            create_audio_segment tts word "en" true false
          else create_audio_segment tts word "en" false false)).flatten
          ++ List.replicate word_pause_ms 0
          ++ (List.intersperse (List.replicate spell_pause_ms (0 : Int))
              ((clean_word word).map (fun c =>
                create_audio_segment tts (String.singleton c) "en" false true))).flatten
          ++ List.replicate word_pause_ms 0
          ++ (if slow_speed then create_audio_segment tts word "en" true false
              else create_audio_segment tts word "en" false false)
          ++ List.replicate word_pause_ms 0
          ++ List.replicate (2 * word_pause_ms) 0 ∧
      (generate_word_audio tts word "" repeat_count slow_speed spell_pause_ms
          word_pause_ms).length =
        repeat_count * (if slow_speed then create_audio_segment tts word "en" true false
            else create_audio_segment tts word "en" false false).length
          + (spelling_combined tts word spell_pause_ms).length
          + (if slow_speed then create_audio_segment tts word "en" true false
              else create_audio_segment tts word "en" false false).length
          + 5 * word_pause_ms ∧
      (spelling_combined tts word spell_pause_ms).length =
        ((clean_word word).map (fun c =>
          (create_audio_segment tts (String.singleton c) "en" false true).length)).sum
          + ((clean_word word).length - 1) * spell_pause_ms := by
  refine ⟨?_, ?_, spelling_combined_length tts word spell_pause_ms⟩
  · simp only [generate_word_audio, if_true]
    rw [spelling_combined_eq]
    have h2q : word_pause_ms * 2 = 2 * word_pause_ms := Nat.mul_comm _ _
    rw [h2q]
    simp only [List.append_nil, List.append_assoc]
  · simp only [generate_word_audio, if_true]
    simp only [List.length_append, List.length_flatten, List.map_replicate,
      List.sum_replicate, smul_eq_mul, List.length_replicate, List.length_nil]
    omega

/-- Witness for C1 at `word = "cat"`, `repeatCount = 2`, `slowSpeed = false`,
`spellPauseMs = 20`, `wordPauseMs = 300` and the concrete oracle `tts0`
(3 ms word and letter buffers): the block lasts
`2*3 + (3*3 + 2*20) + 3 + 5*300 = 1558` ms. -/
theorem c1_word_block_structure_witness :
    1 ≤ 2 ∧ 2 ≤ 5 ∧
      (generate_word_audio tts0 "cat" "" 2 false 20 300).length = 1558 :=
  ⟨by decide, by decide, by
    rw [(c1_word_block_structure tts0 "cat" 2 false 20 300 (by decide) (by decide)).2.1]
    decide⟩

/-- C2: the composed spelling block equals the buffers of the word's
alphabetic characters (non-alphabetic characters filtered out, each at the
accelerated spelling rate) joined with exactly one `spellPauseMs` pad between
consecutive letters, and it is the empty buffer when the filtered word has no
letters. -/
theorem c2_spelling_block (tts : TTS) (word : String) (spell_pause_ms : Nat) :
    spelling_combined tts word spell_pause_ms =
        (List.intersperse (List.replicate spell_pause_ms (0 : Int))
          ((clean_word word).map (fun c =>
            create_audio_segment tts (String.singleton c) "en" false true))).flatten ∧
      (clean_word word = [] → spelling_combined tts word spell_pause_ms = []) := by
  refine ⟨spelling_combined_eq tts word spell_pause_ms, fun h => ?_⟩
  rw [spelling_combined_eq tts word spell_pause_ms, h]
  rfl

/-- Witness for C2: `"123"` has no alphabetic characters, so its spelling
block is empty. -/
theorem c2_spelling_block_witness :
    clean_word "123" = [] ∧ spelling_combined tts0 "123" 50 = [] :=
  ⟨by decide, (c2_spelling_block tts0 "123" 50).2 (by decide)⟩

/-- C5: a failed synthesis request never raises: `create_audio_segment`
returns the fixed 200 ms silent buffer whenever the oracle fails, and with an
always-failing oracle the Word Composer still returns a block whose duration
is the full structural skeleton
`r*200 + (200*L + (L-1)*p) + 200 + (200 if translated) + 5*q`. -/
theorem c5_synthesis_failure_degrades :
    (∀ (tts : TTS) (text lang : String) (slow is_spelling : Bool),
        tts text (voice_for lang) (rate_for slow is_spelling) = none →
          create_audio_segment tts text lang slow is_spelling = List.replicate 200 0 ∧
            200 ≤ (create_audio_segment tts text lang slow is_spelling).length ∧
            ∀ x ∈ create_audio_segment tts text lang slow is_spelling, x = 0) ∧
      ∀ (word translation : String) (repeat_count : Nat) (slow_speed : Bool)
          (spell_pause_ms word_pause_ms : Nat),
        (generate_word_audio (fun _ _ _ => none) word translation repeat_count
            slow_speed spell_pause_ms word_pause_ms).length =
          repeat_count * 200
            + (200 * (clean_word word).length
                + ((clean_word word).length - 1) * spell_pause_ms)
            + 200 + (if translation = "" then 0 else 200) + 5 * word_pause_ms := by
  constructor
  · intro tts text lang slow is_spelling hfail
    have hcreate : create_audio_segment tts text lang slow is_spelling =
        List.replicate 200 0 := by
      unfold create_audio_segment
      rw [hfail]
    refine ⟨hcreate, ?_, ?_⟩
    · rw [hcreate, List.length_replicate]
    · rw [hcreate]
      intro x hx
      exact (List.eq_of_mem_replicate hx)
  · intro word translation repeat_count slow_speed spell_pause_ms word_pause_ms
    have hsp := spelling_combined_length (fun _ _ _ => none) word spell_pause_ms
    have hbuf : ∀ c : Char,
        create_audio_segment (fun _ _ _ => none) (String.singleton c) "en" false true
          = List.replicate 200 0 := fun c => rfl
    simp only [hbuf, List.length_replicate] at hsp
    rw [sum_map_const_nat] at hsp
    simp only [generate_word_audio]
    have hw : (create_audio_segment (fun _ _ _ => none) word "en" false false) =
        List.replicate 200 0 := rfl
    have hws : (create_audio_segment (fun _ _ _ => none) word "en" true false) =
        List.replicate 200 0 := rfl
    have htr : (if translation = "" then []
        else create_audio_segment (fun _ _ _ => none) translation "zh" false false).length =
        (if translation = "" then 0 else 200) := by
      by_cases ht : translation = ""
      · rw [if_pos ht, if_pos ht]; rfl
      · rw [if_neg ht, if_neg ht]
        have hz : create_audio_segment (fun _ _ _ => none) translation "zh" false false =
            List.replicate 200 0 := rfl
        rw [hz, List.length_replicate]
    rw [hw, hws]
    simp only [ite_self, List.length_append, List.length_flatten, List.map_replicate,
      List.sum_replicate, smul_eq_mul, List.length_replicate, htr, hsp]
    omega

/-- Witness for C5: with the always-failing oracle, synthesizing `"cat"`
returns the 200 ms silent buffer, and the `"cat"` block with
`repeatCount = 2`, `spellPauseMs = 20`, `wordPauseMs = 300` and no
translation lasts `2*200 + (600 + 40) + 200 + 0 + 1500 = 2740` ms. -/
theorem c5_synthesis_failure_degrades_witness :
    ((fun _ _ _ => none : TTS) "cat" (voice_for "en") (rate_for false false) = none) ∧
      create_audio_segment (fun _ _ _ => none) "cat" "en" false false =
        List.replicate 200 0 ∧
      (generate_word_audio (fun _ _ _ => none) "cat" "" 2 false 20 300).length = 2740 :=
  ⟨rfl,
   (c5_synthesis_failure_degrades.1 (fun _ _ _ => none) "cat" "en" false false rfl).1,
   by
    rw [c5_synthesis_failure_degrades.2 "cat" "" 2 false 20 300]
    decide⟩

/-! ## Lemmas about parsing and translation resolution -/

theorem parse_input_entries (lines : List String) :
    (parse_input lines).2 = lines.filterMap split_entry := by
  induction lines with
  | nil => rfl
  | cons line rest ih =>
    simp only [parse_input, List.filterMap_cons]
    cases hse : split_entry line with
    | none => simpa using ih
    | some wt =>
      obtain ⟨w, t⟩ := wt
      simpa using ih

theorem parse_input_requests (lines : List String) :
    (parse_input lines).1 =
      ((parse_input lines).2.filter (fun e => e.2 == "")).map Prod.fst := by
  induction lines with
  | nil => rfl
  | cons line rest ih =>
    simp only [parse_input]
    cases hse : split_entry line with
    | none => simpa using ih
    | some wt =>
      obtain ⟨w, t⟩ := wt
      by_cases ht : t = ""
      · simp [ht, ih]
      · simp [ht, ih]

theorem translate_phase_fst (g : String → Option String) (ws : List String) :
    (translate_phase g ws).1 = ws.map (fun w => (w, resolveT g w)) := by
  induction ws with
  | nil => rfl
  | cons w rest ih =>
    simp only [translate_phase]
    cases hg : g w with
    | none => simp [resolveT, hg, ih]
    | some t =>
      by_cases ht : t = ""
      · simp [resolveT, hg, ht, ih]
      · simp [resolveT, hg, ht, ih]

theorem translate_phase_snd (g : String → Option String) (ws : List String) :
    (translate_phase g ws).2 = ws.filter (fun w => resolveT g w == "") := by
  induction ws with
  | nil => rfl
  | cons w rest ih =>
    simp only [translate_phase]
    cases hg : g w with
    | none => simp [resolveT, hg, ih]
    | some t =>
      by_cases ht : t = ""
      · simp [resolveT, hg, ht, ih]
      · simp [resolveT, hg, ht, ih]

theorem foldl_dict_insert_not_mem (d : String → Option String)
    (qs : List (String × String)) (w : String) (h : w ∉ qs.map Prod.fst) :
    qs.foldl dict_insert d w = d w := by
  induction qs generalizing d with
  | nil => rfl
  | cons kv rest ih =>
    simp only [List.foldl_cons]
    rw [ih _ (fun hmem => h (by simp [hmem]))]
    unfold dict_insert
    rw [if_neg (fun heq => h (by simp [heq]))]

theorem foldl_dict_insert_const (d : String → Option String)
    (qs : List (String × String)) (w c : String)
    (hval : ∀ kv ∈ qs, kv.1 = w → kv.2 = c) (hmem : w ∈ qs.map Prod.fst) :
    qs.foldl dict_insert d w = some c := by
  induction qs generalizing d with
  | nil => simp at hmem
  | cons kv rest ih =>
    simp only [List.foldl_cons]
    by_cases hw : w ∈ rest.map Prod.fst
    · exact ih _ (fun e he hh => hval e (List.mem_cons_of_mem _ he) hh) hw
    · have hkv : kv.1 = w := by
        have hm := hmem
        simp only [List.map_cons, List.mem_cons] at hm
        rcases hm with h | h
        · exact h.symm
        · exact absurd h hw
      rw [foldl_dict_insert_not_mem _ _ _ hw]
      unfold dict_insert
      rw [if_pos hkv.symm]
      rw [hval kv (List.mem_cons_self _ _) hkv]

theorem final_words_dict_machine (g : String → Option String) (lines : List String)
    (w : String) (hw : w ∈ (parse_input lines).1) :
    final_words_dict g lines w = some (resolveT g w) := by
  unfold final_words_dict build_dict
  rw [List.foldl_append]
  apply foldl_dict_insert_const
  · intro kv hkv hfst
    rw [translate_phase_fst] at hkv
    obtain ⟨w', hw', hkv'⟩ := List.mem_map.1 hkv
    rw [← hkv'] at hfst ⊢
    simp only at hfst ⊢
    rw [hfst]
  · rw [translate_phase_fst]
    have : ((parse_input lines).1.map (fun w => (w, resolveT g w))).map Prod.fst =
        (parse_input lines).1 := by
      simp [List.map_map, Function.comp_def]
    rw [this]
    exact hw

/-! ## Claim theorems about parsing, translation and truncation -/

/-- C3 (counterexample): a word recurring on several translation-less lines
is queued for translation once per line, not once per run: for the input
`["cat", "cat"]` the translation loop issues two `get_translation` requests
for `"cat"`, refuting "exactly one lookup per distinct word". -/
theorem c3_duplicate_lookup_counterexample :
    (translation_requests ["cat", "cat"]).count "cat" = 2 ∧
      (translation_requests ["cat", "cat"]).count "cat" ≠ 1 := by
  constructor
  · decide
  · decide

/-- C3 (amended): the translation loop issues exactly one lookup request per
parsed input line whose supplied translation is empty, in input order — so a
word recurring on several translation-less lines is looked up once per such
line, and a line carrying a supplied translation triggers no request for that
line. -/
theorem c3_requests_per_untranslated_line (lines : List String) :
    translation_requests lines =
      ((parse_input lines).2.filter (fun e => e.2 == "")).map Prod.fst :=
  parse_input_requests lines

/-- C4 (counterexample): a failed primary translation request is not followed
by any fallback locale/backend attempt: `get_translation` issues exactly the
single request `("auto", "zh-CN")` and resolves to `None` when it fails, so
"at least one fallback locale/backend is attempted" is false. -/
theorem c4_no_fallback_counterexample :
    (get_translation_run (fun _ _ _ => none) "hello").1 = none ∧
      (get_translation_run (fun _ _ _ => none) "hello").2 = [("auto", "zh-CN")] ∧
      ¬ 2 ≤ (get_translation_run (fun _ _ _ => none) "hello").2.length :=
  ⟨rfl, rfl, by decide⟩

/-- C4 (amended): a failed translation lookup attempts no fallback
locale/backend — the single request is `("auto", "zh-CN")` — and resolves to
the empty translation; the failure never aborts the batch (the loop yields one
resolved pair per queued word) and is surfaced as a warning attributed
exactly to the words whose lookup came back falsy. -/
theorem c4_failure_isolation (tr : String → String → String → Option String)
    (text : String) (g : String → Option String) (ws : List String) :
    (get_translation_run tr text).2 = [("auto", "zh-CN")] ∧
      (translate_phase g ws).1 = ws.map (fun w => (w, resolveT g w)) ∧
      (translate_phase g ws).2 = ws.filter (fun w => resolveT g w == "") :=
  ⟨rfl, translate_phase_fst g ws, translate_phase_snd g ws⟩

/-- C7: with a positive `maxWords` exactly the first `maxWords` entries are
composed and concatenated in input order, and with `maxWords = 0` all entries
are; the truncation is applied before composition, independently of
`repeatCount` and the pause settings. -/
theorem c7_max_words_truncation (tts : TTS) (repeat_count : Nat)
    (slow_speed : Bool) (spell_pause_ms word_pause_ms : Nat)
    (entries : List (String × String)) (words_per_file : Nat) :
    (0 < words_per_file →
        words_to_process entries words_per_file = entries.take words_per_file ∧
          combined_audio_segment tts repeat_count slow_speed spell_pause_ms
              word_pause_ms words_per_file entries =
            ((entries.take words_per_file).map (fun e => generate_word_audio tts
              e.1 e.2 repeat_count slow_speed spell_pause_ms word_pause_ms)).flatten) ∧
      (words_per_file = 0 →
        words_to_process entries words_per_file = entries ∧
          combined_audio_segment tts repeat_count slow_speed spell_pause_ms
              word_pause_ms words_per_file entries =
            (entries.map (fun e => generate_word_audio tts e.1 e.2 repeat_count
              slow_speed spell_pause_ms word_pause_ms)).flatten) := by
  constructor
  · intro h
    have ht : words_to_process entries words_per_file = entries.take words_per_file := by
      unfold words_to_process
      rw [if_pos h]
    exact ⟨ht, by unfold combined_audio_segment; rw [ht]⟩
  · intro h
    subst h
    have ht : words_to_process entries 0 = entries := by
      unfold words_to_process
      rw [if_neg (lt_irrefl 0)]
      exact List.take_length ..
    exact ⟨ht, by unfold combined_audio_segment; rw [ht]⟩

/-- Witness for C7 on a concrete 4-entry list: `maxWords = 3` keeps the first
three entries and `maxWords = 0` keeps all four. -/
theorem c7_max_words_truncation_witness :
    0 < 3 ∧
      words_to_process [("a", ""), ("b", ""), ("c", ""), ("d", "")] 3 =
        [("a", ""), ("b", ""), ("c", "")] ∧
      words_to_process [("a", ""), ("b", ""), ("c", ""), ("d", "")] 0 =
        [("a", ""), ("b", ""), ("c", ""), ("d", "")] :=
  ⟨by decide,
   by
    rw [((c7_max_words_truncation tts0 2 false 20 300
      [("a", ""), ("b", ""), ("c", ""), ("d", "")] 3).1 (by decide)).1]
    decide,
   ((c7_max_words_truncation tts0 2 false 20 300
      [("a", ""), ("b", ""), ("c", ""), ("d", "")] 0).2 rfl).1⟩

/-- C8: the Entry Parser produces one entry per non-blank line in input order
(`filterMap` of the per-line parse), where each line is trimmed, has the
full-width comma normalized, is split on the first comma only with both parts
trimmed; a comma-less line gets the empty translation, a lone comma yields an
empty word and empty translation, a blank line is skipped, and parsing never
fails on malformed lines. -/
theorem c8_entry_parsing (lines : List String) :
    (parse_input lines).2 = lines.filterMap split_entry ∧
      split_entry "," = some ("", "") ∧
      split_entry "Banana，香蕉" = split_entry "Banana,香蕉" ∧
      split_entry "Banana,香蕉" = some ("Banana", "香蕉") ∧
      split_entry " Apple, 苹果 " = some ("Apple", "苹果") ∧
      split_entry "Apple" = some ("Apple", "") ∧
      split_entry "a,b,c" = some ("a", "b,c") ∧
      split_entry "   " = none :=
  ⟨parse_input_entries lines, by decide, by decide, by decide, by decide,
   by decide, by decide, by decide⟩

/-- C9: translations are merged by word text with machine results applied
after all supplied ones: when a word has at least one occurrence with no
supplied translation, every occurrence of that word is rendered with the
machine-translation result (the empty string on lookup failure), even for
occurrences whose own line supplied a translation. -/
theorem c9_machine_translation_overwrites (g : String → Option String)
    (lines : List String) (w : String)
    (hw : (w, "") ∈ (parse_input lines).2) :
    ∀ e ∈ words_data_for_audio g lines, e.1 = w → e.2 = resolveT g w := by
  intro e he hfst
  unfold words_data_for_audio at he
  obtain ⟨e0, he0, hmap⟩ := List.mem_map.1 he
  have hw1 : w ∈ (parse_input lines).1 := by
    rw [parse_input_requests]
    refine List.mem_map.2 ⟨(w, ""), List.mem_filter.2 ⟨hw, by simp⟩, rfl⟩
  rw [← hmap] at hfst ⊢
  simp only at hfst ⊢
  rw [hfst, final_words_dict_machine g lines w hw1]
  rfl

/-- Witness for C9: in `["cat,供", "cat"]` the word `"cat"` has a supplied
translation on its first line and none on its second; with a provider
returning `"MT"`, both rendered occurrences carry `"MT"`. -/
theorem c9_machine_translation_overwrites_witness :
    ("cat", "") ∈ (parse_input ["cat,供", "cat"]).2 ∧
      ("cat", "MT") ∈ words_data_for_audio (fun _ => some "MT") ["cat,供", "cat"] ∧
      ("cat", "供") ∈ (parse_input ["cat,供", "cat"]).2 ∧
      ("cat", "MT").2 = resolveT (fun _ => some "MT") "cat" :=
  ⟨by decide, by decide, by decide,
   c9_machine_translation_overwrites (fun _ => some "MT") ["cat,供", "cat"] "cat"
     (by decide) ("cat", "MT") (by decide) rfl⟩
